import Mathlib

/-!
Verification of the session-overlap correlator of the battlemetrics bot
(`util/correlate.py`).  Timestamps (timezone-aware datetimes in the code)
are modelled as integers; player ids and server ids, which the code only
compares for equality, are modelled as naturals.
-/

namespace BMCorrelate

/-- A play session as consumed by the correlator: parsed start time, the
parsed stop time (`none` for a still-active session, i.e. a null
`attributes.stop`), and the related server id. -/
structure Session where
  start : Int
  stop : Option Int
  server : Nat
deriving DecidableEq

/-- The effective stop used by the overlap math: the parsed stop when
present, else the correlation window end (`end_time` in the code). -/
def effStop (endTime : Int) (s : Session) : Int :=
  s.stop.getD endTime

/-- One entry of the `overlapping_sessions` list built by
`find_overlapping_sessions`: server id, overlap start, overlap stop,
duration and the list of participating player ids, in insertion order. -/
structure OverlapRec where
  server_id : Nat
  start : Int
  stop : Int
  duration : Int
  players : List Nat
deriving DecidableEq

/-- The merge key of a record: `(server_id, start, stop)`; the code looks
existing records up by exactly these three fields. -/
def OverlapRec.key (r : OverlapRec) : Nat × Int × Int :=
  (r.server_id, r.start, r.stop)

/-- `if player_ids[j] not in existing_overlap['players']:
existing_overlap['players'].append(player_ids[j])`. -/
def addPlayer (r : OverlapRec) (pj : Nat) : OverlapRec :=
  if pj ∈ r.players then r else { r with players := r.players ++ [pj] }

/-- The record-list update done for one detected overlap: find the first
record whose `(server_id, start, stop)` equals the overlap key and add
`player_ids[j]` to it (deduplicated); if none exists, append a fresh
record with players `[player_ids[i], player_ids[j]]`. -/
def insertOverlap (pi pj : Nat) (srv : Nat) (a b : Int) :
    List OverlapRec → List OverlapRec
  | [] => [⟨srv, a, b, b - a, [pi, pj]⟩]
  | r :: rs =>
    if r.server_id = srv ∧ r.start = a ∧ r.stop = b then
      addPlayer r pj :: rs
    else
      r :: insertOverlap pi pj srv a b rs

/-- The body of the innermost loop: for one session of player `i` and one
session of player `j`, `if server1 == server2 and max(start1, start2) <
min(stop1, stop2)` record the overlap, else leave the state unchanged. -/
def stepSessions (endTime : Int) (pi pj : Nat) (s1 s2 : Session)
    (st : List OverlapRec) : List OverlapRec :=
  if s1.server = s2.server ∧
      max s1.start s2.start < min (effStop endTime s1) (effStop endTime s2) then
    insertOverlap pi pj s1.server (max s1.start s2.start)
      (min (effStop endTime s1) (effStop endTime s2)) st
  else st

/-- The two session loops for one pair of players:
`for session1 in player1_sessions: for session2 in player2_sessions: ...`. -/
def processPair (endTime : Int) (sess : Nat → List Session)
    (st : List OverlapRec) (pq : Nat × Nat) : List OverlapRec :=
  (sess pq.1).foldl
    (fun st1 s1 =>
      (sess pq.2).foldl (fun st2 s2 => stepSessions endTime pq.1 pq.2 s1 s2 st2) st1)
    st

/-- The index pairs visited by `for i in range(n): for j in range(i+1, n)`,
as the corresponding player-id pairs. -/
def allPairs : List Nat → List (Nat × Nat)
  | [] => []
  | x :: xs => xs.map (fun y => (x, y)) ++ allPairs xs

/-- The analysis phase of `find_overlapping_sessions`: given the fetched
sessions of every player (the `all_sessions` dict) and the window end
time, fold the pair loops over an initially empty record list. -/
def find_overlapping_sessions (player_ids : List Nat)
    (sess : Nat → List Session) (end_time : Int) : List OverlapRec :=
  (allPairs player_ids).foldl (processPair end_time sess) []

/-! ## The session fetcher (`get_player_sessions`)

The HTTP layer is abstracted as a `provider` mapping a request URL to the
parsed response: a status code, the parsed `data` list (sessions), and
the `links.next` URL when present.  The `while url:` loop is given a fuel
bound (the Python loop follows `next` links indefinitely); exhausting the
fuel is reported as `none`. -/

/-- One parsed page response: `status_code`, `data` and `links.next`. -/
structure PageResponse where
  status : Nat
  data : List Session
  next : Option String
deriving DecidableEq

/-- Outcome of one run of the page loop: normal return of the accumulated
sessions (or of `[]` on a non-200 page), an auth rejection that triggers
the downgrade retry, or fuel exhaustion. -/
inductive FetchResult where
  | ok (sessions : List Session) : FetchResult
  | authRejected : FetchResult
  | outOfFuel : FetchResult
deriving DecidableEq

/-- The initial request URL: `BASE_URL` plus the urlencoded params
`include=server`, `page[size]=90`, `filter[players]=<id>`, and
`access_token=<jwt>` exactly when a jwt is given and not ignored.  Note
that no parameter depends on the correlation window. -/
def initUrl (player_id : String) (jwt : Option String) (ignore_jwt : Bool) : String :=
  "https://api.battlemetrics.com/sessions?include=server&page%5Bsize%5D=90&filter%5Bplayers%5D="
    ++ player_id ++
    (match jwt with
     | some j => if ignore_jwt then "" else "&access_token=" ++ j
     | none => "")

/-- `if url and jwt and not ignore_jwt: url += f"&access_token={jwt}"`
applied to a `links.next` URL. -/
def nextUrl (jwt : Option String) (ignore_jwt : Bool) (u : String) : String :=
  match jwt with
  | some j => if ignore_jwt then u else u ++ "&access_token=" ++ j
  | none => u

/-- The `while url:` loop of `get_player_sessions`.  At each page: a 401
with `ignore_jwt` unset aborts into the downgrade retry; any other
non-200 status returns `[]` (dropping the accumulator); otherwise the
page data is appended and the loop continues at `links.next`. -/
def fetchLoop (provider : String → PageResponse) (jwt : Option String)
    (ignore_jwt : Bool) : Nat → Option String → List Session → FetchResult
  | _, none, acc => .ok acc
  | 0, some _, _ => .outOfFuel
  | fuel + 1, some url, acc =>
    let r := provider url
    if r.status = 401 ∧ ¬ ignore_jwt then .authRejected
    else if r.status ≠ 200 then .ok []
    else fetchLoop provider jwt ignore_jwt fuel (r.next.map (nextUrl jwt ignore_jwt)) (acc ++ r.data)

/-- `get_player_sessions(player_id, player_names, start_time, end_time,
jwt, ignore_jwt)`.  The `_start_time`/`_end_time` arguments are carried
exactly as in the source, which accepts and never uses them.  A 401 on
any page of the first run restarts the whole fetch once with the jwt
dropped and `ignore_jwt=True`; `none` stands for a non-terminating page
walk (fuel exhaustion). -/
def get_player_sessions (provider : String → PageResponse) (player_id : String)
    (_start_time _end_time : Int) (jwt : Option String) (ignore_jwt : Bool)
    (fuel : Nat) : Option (List Session) :=
  match fetchLoop provider jwt ignore_jwt fuel (some (initUrl player_id jwt ignore_jwt)) [] with
  | .ok l => some l
  | .outOfFuel => none
  | .authRejected =>
    match fetchLoop provider none true fuel (some (initUrl player_id none true)) [] with
    | .ok l => some l
    | .outOfFuel => none
    | .authRejected => none

/-! ## Auxiliary notions used to state the claims -/

/-- Modelled from the spec: a session intersects the half-open correlation
window `[wstart, wend)` (a null stop read as the window end). -/
def spec_intersects_window (wstart wend : Int) (s : Session) : Prop :=
  s.start < wend ∧ wstart < effStop wend s

/-- The key of one session as seen by the overlap math: start, effective
stop, and server id. -/
def sessKey (endTime : Int) (s : Session) : Int × Int × Nat :=
  (s.start, effStop endTime s, s.server)

/-- Equality of the session keys: two sessions the overlap math cannot
distinguish. -/
def sessKeyEq (endTime : Int) (x y : Session) : Prop :=
  sessKey endTime x = sessKey endTime y

/-- The OverlapRecord invariant of the spec, relative to the fetched
sessions: positive length, derived duration, at least two participants,
deduplicated participants, and a covering session per participant. -/
def RecordInvariant (endTime : Int) (sess : Nat → List Session)
    (r : OverlapRec) : Prop :=
  r.start < r.stop ∧ r.duration = r.stop - r.start ∧
    2 ≤ r.players.length ∧ r.players.Nodup ∧
    ∀ p ∈ r.players, ∃ s ∈ sess p,
      s.server = r.server_id ∧ s.start ≤ r.start ∧ r.stop ≤ effStop endTime s

/-- The invariant over a whole record list. -/
def StateInvariant (endTime : Int) (sess : Nat → List Session)
    (st : List OverlapRec) : Prop :=
  ∀ r ∈ st, RecordInvariant endTime sess r

/-- A record list holds, for the key `K`, a record counting `q` among its
participants. -/
def hasRecordWith (K : Nat × Int × Int) (q : Nat) (st : List OverlapRec) : Prop :=
  ∃ r ∈ st, r.key = K ∧ q ∈ r.players

instance (K : Nat × Int × Int) (q : Nat) (st : List OverlapRec) :
    Decidable (hasRecordWith K q st) :=
  inferInstanceAs (Decidable (∃ r ∈ st, r.key = K ∧ q ∈ r.players))

/-! ## Concrete data used for counterexamples and witnesses -/

/-- Two players whose sessions are the spec example `s1=[10,20]`,
`s2=[15,25]` on server 1. -/
def wSess : Nat → List Session := fun p =>
  if p = 1 then [⟨10, some 20, 1⟩]
  else if p = 2 then [⟨15, some 25, 1⟩]
  else []

/-- Session data for the duplicated player id 7: one session `[0,10]` on
server 5. -/
def dupSess : Nat → List Session := fun p =>
  if p = 7 then [⟨0, some 10, 5⟩] else []

/-- Four players on server 0: sessions `[0,7]`, `[3,10]`, `[2,8]`,
`[3,7]`.  The pair (2,3) reproduces the overlap `(0,3,7)` created by the
pair (0,1), and the merge adds only player 3. -/
def exSessC1 : Nat → List Session := fun p =>
  if p = 0 then [⟨0, some 7, 0⟩]
  else if p = 1 then [⟨3, some 10, 0⟩]
  else if p = 2 then [⟨2, some 8, 0⟩]
  else if p = 3 then [⟨3, some 7, 0⟩]
  else []

/-- A session of player 1 with a null stop, and a session of player 2. -/
def nullStopSess : Nat → List Session := fun p =>
  if p = 1 then [⟨10, none, 1⟩]
  else if p = 2 then [⟨15, some 25, 1⟩]
  else []

/-- The same data with the null stop replaced by the window end 20. -/
def nullStopSessSubst : Nat → List Session := fun p =>
  if p = 1 then [⟨10, some 20, 1⟩]
  else if p = 2 then [⟨15, some 25, 1⟩]
  else []

/-- A provider whose single page succeeds but carries a session lying
entirely outside the window `[0, 50)`. -/
def badProvider : String → PageResponse := fun _ =>
  ⟨200, [⟨100, some 200, 1⟩], none⟩

/-- A provider that rejects every request with 401. -/
def authProvider : String → PageResponse := fun _ =>
  ⟨401, [], none⟩

/-- A provider that fails every request with a server error. -/
def failProvider : String → PageResponse := fun _ =>
  ⟨500, [⟨0, some 1, 1⟩], none⟩

/-! ## Claim C10: duplicate input ids are not collapsed -/

/-- C10: when the same player id occurs at two positions of the input
(here `[7, 7]`), the engine pairs that player's single positive-length
session with itself and emits an OverlapRecord whose participant list
holds the id twice: the input list is not deduplicated before pairing. -/
theorem claim_C10_duplicate_ids_not_collapsed :
    find_overlapping_sessions [7, 7] dupSess 100 = [⟨5, 0, 10, 10, [7, 7]⟩] := by
  rfl

/-! ## Claim C4: idempotence of the overlap computation -/

/-- C4: the overlap computation is a pure function of the fetched session
data and the window end, so two runs over identical input yield identical
(hence set-equal) record sequences. -/
theorem claim_C4_idempotent (ids : List Nat) (sess : Nat → List Session)
    (T : Int) (r1 r2 : List OverlapRec)
    (h1 : find_overlapping_sessions ids sess T = r1)
    (h2 : find_overlapping_sessions ids sess T = r2) : r1 = r2 := by
  rw [← h1, ← h2]

/-- Witness for C4 at the spec's two-player example. -/
theorem claim_C4_witness :
    [(⟨1, 15, 20, 5, [1, 2]⟩ : OverlapRec)] = [⟨1, 15, 20, 5, [1, 2]⟩] :=
  claim_C4_idempotent [1, 2] wSess 100 _ _ rfl rfl

/-! ## Claim C5: strict-inequality boundary and server separation -/

/-- C5: a session pair on distinct servers, or touching end-to-start,
leaves the record list unchanged; and a pair changes the record list only
when the servers agree and `max(start1, start2) < min(stop1, stop2)`
strictly (stops read as effective stops). -/
theorem claim_C5_strict_boundary_and_server (T : Int) (pi pj : Nat)
    (s1 s2 : Session) (st : List OverlapRec) :
    ((s1.server ≠ s2.server ∨ effStop T s1 = s2.start ∨ effStop T s2 = s1.start) →
      stepSessions T pi pj s1 s2 st = st)
    ∧ (stepSessions T pi pj s1 s2 st ≠ st →
      s1.server = s2.server ∧
        max s1.start s2.start < min (effStop T s1) (effStop T s2)) := by
  constructor
  · intro h
    unfold stepSessions
    rw [if_neg]
    rintro ⟨hsrv, hlt⟩
    rcases h with h | h | h
    · exact h hsrv
    · have h1 : s2.start ≤ max s1.start s2.start := le_max_right _ _
      have h2 : min (effStop T s1) (effStop T s2) ≤ effStop T s1 := min_le_left _ _
      omega
    · have h1 : s1.start ≤ max s1.start s2.start := le_max_left _ _
      have h2 : min (effStop T s1) (effStop T s2) ≤ effStop T s2 := min_le_right _ _
      omega
  · intro hne
    by_cases hg : s1.server = s2.server ∧
        max s1.start s2.start < min (effStop T s1) (effStop T s2)
    · exact hg
    · exact absurd (by unfold stepSessions; rw [if_neg hg]) hne

/-- Witness for C5: the touching pair `[10,20]`, `[20,30]` on server 1
produces no record. -/
theorem claim_C5_witness :
    stepSessions 100 1 2 ⟨10, some 20, 1⟩ ⟨20, some 30, 1⟩ [] = [] :=
  (claim_C5_strict_boundary_and_server 100 1 2 ⟨10, some 20, 1⟩ ⟨20, some 30, 1⟩ []).1
    (Or.inr (Or.inl (by decide)))

/-! ## Claim C9: a failing page discards all accumulated sessions -/

/-- C9: when the page at `u` answers with a non-200 status that is not a
retryable 401, the fetch loop returns `ok []` whatever sessions `acc`
earlier pages had accumulated: a partial page sequence is never
returned. -/
theorem claim_C9_failure_discards (provider : String → PageResponse)
    (jwt : Option String) (ig : Bool) (fuel : Nat) (u : String)
    (acc : List Session)
    (h200 : (provider u).status ≠ 200)
    (h401 : ¬((provider u).status = 401 ∧ ¬ ig)) :
    fetchLoop provider jwt ig (fuel + 1) (some u) acc = .ok [] := by
  simp only [fetchLoop]
  rw [if_neg h401, if_pos h200]

/-- Witness for C9: a 500 page drops a nonempty accumulator. -/
theorem claim_C9_witness :
    fetchLoop failProvider (some "t") false 1 (some "u") [⟨0, some 1, 1⟩] = .ok [] :=
  claim_C9_failure_discards failProvider (some "t") false 0 "u" [⟨0, some 1, 1⟩]
    (by decide) (by decide)

/-! ## Claim C2: the fetcher does not restrict sessions to the window -/

/-- C2 (refuting evaluation): `get_player_sessions` is independent of the
window bounds it receives — the request parameters carry no time filter
and no post-filtering happens — and a concrete provider page holding a
session entirely outside the window `[0, 50)` is returned as-is. -/
theorem claim_C2_window_not_filtered :
    (∀ (provider : String → PageResponse) (pid : String) (a b c d : Int)
        (jwt : Option String) (ig : Bool) (fuel : Nat),
      get_player_sessions provider pid a b jwt ig fuel
        = get_player_sessions provider pid c d jwt ig fuel)
    ∧ get_player_sessions badProvider "p" 0 50 none false 1
        = some [⟨100, some 200, 1⟩]
    ∧ ¬ spec_intersects_window 0 50 ⟨100, some 200, 1⟩ := by
  refine ⟨fun provider pid a b c d jwt ig fuel => rfl, rfl, ?_⟩
  intro h
  exact absurd h.1 (by decide)

/-- Witness for C2: the fetch over window `[0, 50)` equals the fetch over
the unrelated window `[7, 8)`. -/
theorem claim_C2_witness :
    get_player_sessions badProvider "p" 0 50 none false 1
      = get_player_sessions badProvider "p" 7 8 none false 1 :=
  claim_C2_window_not_filtered.1 badProvider "p" 0 50 7 8 none false 1

/-! ## Claim C6: null-stop sessions behave as stop = window end -/

theorem sessKeyEq_refl_list (T : Int) (l : List Session) :
    List.Forall₂ (sessKeyEq T) l l :=
  List.forall₂_same.mpr (fun _ _ => rfl)

theorem stepSessions_congr (T : Int) (pi pj : Nat) {a a' b b' : Session}
    (ha : sessKeyEq T a a') (hb : sessKeyEq T b b') (st : List OverlapRec) :
    stepSessions T pi pj a b st = stepSessions T pi pj a' b' st := by
  obtain ⟨ha1, ha2, ha3⟩ : a.start = a'.start ∧ effStop T a = effStop T a'
      ∧ a.server = a'.server := by
    simpa [sessKeyEq, sessKey, Prod.ext_iff] using ha
  obtain ⟨hb1, hb2, hb3⟩ : b.start = b'.start ∧ effStop T b = effStop T b'
      ∧ b.server = b'.server := by
    simpa [sessKeyEq, sessKey, Prod.ext_iff] using hb
  unfold stepSessions
  rw [ha1, ha2, ha3, hb1, hb2, hb3]

theorem foldlInner_congr (T : Int) (pi pj : Nat) {a a' : Session}
    (ha : sessKeyEq T a a') {l l' : List Session}
    (hl : List.Forall₂ (sessKeyEq T) l l') :
    ∀ st, l.foldl (fun st2 s2 => stepSessions T pi pj a s2 st2) st
      = l'.foldl (fun st2 s2 => stepSessions T pi pj a' s2 st2) st := by
  induction hl with
  | nil => intro st; rfl
  | cons hxy _ ih =>
    intro st
    simp only [List.foldl_cons]
    rw [stepSessions_congr T pi pj ha hxy st]
    exact ih _

theorem foldlOuter_congr (T : Int) (pi pj : Nat) {l1 l1' l2 l2' : List Session}
    (h1 : List.Forall₂ (sessKeyEq T) l1 l1')
    (h2 : List.Forall₂ (sessKeyEq T) l2 l2') :
    ∀ st, l1.foldl (fun st1 s1 =>
        l2.foldl (fun st2 s2 => stepSessions T pi pj s1 s2 st2) st1) st
      = l1'.foldl (fun st1 s1 =>
        l2'.foldl (fun st2 s2 => stepSessions T pi pj s1 s2 st2) st1) st := by
  induction h1 with
  | nil => intro st; rfl
  | cons hxy _ ih =>
    intro st
    simp only [List.foldl_cons]
    rw [foldlInner_congr T pi pj hxy h2 st]
    exact ih _

theorem processPair_congr (T : Int) (sess sess' : Nat → List Session)
    (hk : ∀ p, List.Forall₂ (sessKeyEq T) (sess p) (sess' p))
    (pq : Nat × Nat) (st : List OverlapRec) :
    processPair T sess st pq = processPair T sess' st pq := by
  unfold processPair
  exact foldlOuter_congr T pq.1 pq.2 (hk pq.1) (hk pq.2) st

theorem find_overlapping_congr (ids : List Nat)
    (sess sess' : Nat → List Session) (T : Int)
    (hk : ∀ p, List.Forall₂ (sessKeyEq T) (sess p) (sess' p)) :
    find_overlapping_sessions ids sess T = find_overlapping_sessions ids sess' T := by
  unfold find_overlapping_sessions
  suffices h : ∀ (prs : List (Nat × Nat)) st,
      prs.foldl (processPair T sess) st = prs.foldl (processPair T sess') st by
    exact h _ _
  intro prs
  induction prs with
  | nil => intro st; rfl
  | cons q qs ih =>
    intro st
    simp only [List.foldl_cons]
    rw [processPair_congr T sess sess' hk q st]
    exact ih _

/-- C6: replacing the null stop of one session by the window end time `T`
leaves the computed OverlapRecord sequence unchanged — an active session
is evaluated exactly as if it stopped at the window end. -/
theorem claim_C6_null_stop_substitution (ids : List Nat)
    (sess sess' : Nat → List Session) (T : Int) (p0 : Nat)
    (pre post : List Session) (s : Session)
    (hnull : s.stop = none)
    (hs : sess p0 = pre ++ s :: post)
    (hs' : sess' p0 = pre ++ { s with stop := some T } :: post)
    (hother : ∀ p, p ≠ p0 → sess' p = sess p) :
    find_overlapping_sessions ids sess' T = find_overlapping_sessions ids sess T := by
  refine (find_overlapping_congr ids sess sess' T ?_).symm
  intro p
  by_cases hp : p = p0
  · subst hp
    rw [hs, hs']
    refine List.rel_append (sessKeyEq_refl_list T pre) ?_
    refine List.Forall₂.cons ?_ (sessKeyEq_refl_list T post)
    simp [sessKeyEq, sessKey, effStop, hnull]
  · rw [hother p hp]
    exact sessKeyEq_refl_list T _

/-- Witness for C6: the null-stop session of player 1 against window end
20 yields the same records as its stop-20 variant. -/
theorem claim_C6_witness :
    find_overlapping_sessions [1, 2] nullStopSessSubst 20
      = find_overlapping_sessions [1, 2] nullStopSess 20 :=
  claim_C6_null_stop_substitution [1, 2] nullStopSess nullStopSessSubst 20 1
    [] [] ⟨10, none, 1⟩ rfl rfl rfl
    (fun p hp => by simp [nullStopSess, nullStopSessSubst, hp])

/-! ## Claim C8: per-player failure isolation -/

theorem processPair_left_empty (T : Int) (sess : Nat → List Session)
    (st : List OverlapRec) (pq : Nat × Nat) (h : sess pq.1 = []) :
    processPair T sess st pq = st := by
  unfold processPair
  rw [h]
  rfl

theorem processPair_right_empty (T : Int) (sess : Nat → List Session)
    (st : List OverlapRec) (pq : Nat × Nat) (h : sess pq.2 = []) :
    processPair T sess st pq = st := by
  unfold processPair
  rw [h]
  exact List.foldl_fixed' (fun _ => rfl) _

theorem foldlPairs_filter (T : Int) (sess : Nat → List Session) (p : Nat)
    (h : sess p = []) :
    ∀ (prs : List (Nat × Nat)) (st : List OverlapRec),
      prs.foldl (processPair T sess) st
        = (prs.filter (fun q => decide (q.1 ≠ p) && decide (q.2 ≠ p))).foldl
            (processPair T sess) st := by
  intro prs
  induction prs with
  | nil => intro st; rfl
  | cons q qs ih =>
    intro st
    by_cases h1 : q.1 = p
    · have hb : (decide (q.1 ≠ p) && decide (q.2 ≠ p)) = false := by simp [h1]
      have hq : processPair T sess st q = st :=
        processPair_left_empty T sess st q (by rw [h1, h])
      simp only [List.foldl_cons, List.filter_cons, hb, Bool.false_eq_true, if_false]
      rw [hq]
      exact ih st
    · by_cases h2 : q.2 = p
      · have hb : (decide (q.1 ≠ p) && decide (q.2 ≠ p)) = false := by simp [h2]
        have hq : processPair T sess st q = st :=
          processPair_right_empty T sess st q (by rw [h2, h])
        simp only [List.foldl_cons, List.filter_cons, hb, Bool.false_eq_true, if_false]
        rw [hq]
        exact ih st
      · have hb : (decide (q.1 ≠ p) && decide (q.2 ≠ p)) = true := by simp [h1, h2]
        simp only [List.foldl_cons, List.filter_cons, hb, if_true]
        exact ih _

theorem allPairs_filter (f : Nat → Bool) :
    ∀ ids : List Nat,
      allPairs (ids.filter f) = (allPairs ids).filter (fun q => f q.1 && f q.2) := by
  intro ids
  induction ids with
  | nil => rfl
  | cons x xs ih =>
    cases hfx : f x with
    | true =>
      have hmap : (xs.map (fun y => (x, y))).filter (fun q => f q.1 && f q.2)
          = (xs.filter f).map (fun y => (x, y)) := by
        rw [List.filter_map]
        congr 1
        apply List.filter_congr
        intro y _
        simp [hfx]
      simp only [allPairs, List.filter_cons, hfx, if_true, List.filter_append, hmap, ih]
    | false =>
      have hmap : (xs.map (fun y => (x, y))).filter (fun q => f q.1 && f q.2) = [] := by
        rw [List.filter_map]
        have : (xs.filter ((fun q : Nat × Nat => f q.1 && f q.2) ∘ fun y => (x, y))) = [] := by
          rw [List.filter_congr (q := fun _ => false)]
          · exact List.filter_false xs
          · intro y _
            simp [hfx]
        rw [this]
        rfl
      simp only [allPairs, List.filter_cons, hfx, Bool.false_eq_true, if_false,
        List.filter_append, hmap, List.nil_append, ih]

/-- C8: a player whose fetch produced no sessions (the engine's reading of
an unrecoverable fetch failure) contributes nothing: the correlation
equals the correlation over the remaining players; and a single-player
correlation is always the empty sequence, a valid non-error outcome. -/
theorem claim_C8_failure_isolation (ids : List Nat)
    (sess : Nat → List Session) (T : Int) (p q : Nat) :
    (sess p = [] →
      find_overlapping_sessions ids sess T
        = find_overlapping_sessions (ids.filter (fun r => decide (r ≠ p))) sess T)
    ∧ find_overlapping_sessions [q] sess T = [] := by
  constructor
  · intro h
    unfold find_overlapping_sessions
    rw [allPairs_filter]
    exact foldlPairs_filter T sess p h (allPairs ids) []
  · rfl

/-- Witness for C8: player 3 has no sessions, so correlating `[1, 2, 3]`
equals correlating `[1, 2]`; separately, a lone player yields `[]`. -/
theorem claim_C8_witness :
    (find_overlapping_sessions [1, 2, 3] wSess 100
      = find_overlapping_sessions ([1, 2, 3].filter (fun r => decide (r ≠ 3))) wSess 100)
    ∧ find_overlapping_sessions [5] wSess 100 = [] :=
  ⟨(claim_C8_failure_isolation [1, 2, 3] wSess 100 3 5).1 rfl,
   (claim_C8_failure_isolation [1, 2, 3] wSess 100 3 5).2⟩

/-! ## Claim C7: auth downgrade is retried exactly once -/

theorem fetchLoop_ignore_ne_auth (provider : String → PageResponse)
    (jwt : Option String) :
    ∀ (fuel : Nat) (ou : Option String) (acc : List Session),
      fetchLoop provider jwt true fuel ou acc ≠ .authRejected := by
  intro fuel
  induction fuel with
  | zero =>
    intro ou acc
    cases ou with
    | none => simp [fetchLoop]
    | some u => simp [fetchLoop]
  | succ n ih =>
    intro ou acc
    cases ou with
    | none => simp [fetchLoop]
    | some u =>
      simp only [fetchLoop]
      rw [if_neg (by simp)]
      by_cases h : (provider u).status ≠ 200
      · rw [if_pos h]
        simp
      · rw [if_neg h]
        exact ih _ _

/-- C7: if the elevated-credential fetch is rejected with a 401 on some
page, the result of `get_player_sessions` is exactly the result of one
fresh fetch carrying no token (`jwt` dropped, `ignore_jwt` set); that
retried fetch can never trigger another auth retry, and any failing page
in it makes the final result the empty session list. -/
theorem claim_C7_auth_downgrade_retry (provider : String → PageResponse)
    (pid : String) (st en : Int) (j : String) (fuel : Nat)
    (h : fetchLoop provider (some j) false fuel
        (some (initUrl pid (some j) false)) [] = .authRejected) :
    (get_player_sessions provider pid st en (some j) false fuel
      = match fetchLoop provider none true fuel (some (initUrl pid none true)) [] with
        | .ok l => some l
        | _ => none)
    ∧ (∀ (fuel' : Nat) (ou : Option String) (acc : List Session),
        fetchLoop provider none true fuel' ou acc ≠ .authRejected)
    ∧ (∀ (fuel' : Nat) (u : String) (acc : List Session),
        (provider u).status ≠ 200 →
        fetchLoop provider none true (fuel' + 1) (some u) acc = .ok []) := by
  refine ⟨?_, fetchLoop_ignore_ne_auth provider none, ?_⟩
  · unfold get_player_sessions
    rw [h]
    cases h2 : fetchLoop provider none true fuel (some (initUrl pid none true)) [] <;> rfl
  · intro fuel' u acc h200
    simp only [fetchLoop]
    rw [if_neg (by simp), if_pos h200]

/-- Witness for C7: a provider answering 401 everywhere: the first run is
auth-rejected, the downgraded run hits the 401 again, which now counts as
a plain failure and yields the empty list with no further attempt. -/
theorem claim_C7_witness :
    (get_player_sessions authProvider "p" 0 0 (some "t") false 1
      = match fetchLoop authProvider none true 1 (some (initUrl "p" none true)) [] with
        | .ok l => some l
        | _ => none)
    ∧ fetchLoop authProvider none true 1 (some "u") [] ≠ .authRejected
    ∧ fetchLoop authProvider none true (0 + 1) (some "u") [] = .ok [] :=
  ⟨(claim_C7_auth_downgrade_retry authProvider "p" 0 0 "t" 1 rfl).1,
   (claim_C7_auth_downgrade_retry authProvider "p" 0 0 "t" 1 rfl).2.1 1 (some "u") [],
   (claim_C7_auth_downgrade_retry authProvider "p" 0 0 "t" 1 rfl).2.2 0 "u" [] (by decide)⟩

/-! ## Generic fold lemmas -/

theorem foldl_pres {α β : Type} {P : β → Prop} {f : β → α → β}
    (hf : ∀ st x, P st → P (f st x)) :
    ∀ (l : List α) (st : β), P st → P (l.foldl f st) := by
  intro l
  induction l with
  | nil => intro st h; exact h
  | cons x xs ih => intro st h; exact ih _ (hf st x h)

theorem foldl_pres_mem {α β : Type} {P : β → Prop} {f : β → α → β} :
    ∀ {l : List α}, (∀ x ∈ l, ∀ st, P st → P (f st x)) →
      ∀ st, P st → P (l.foldl f st) := by
  intro l
  induction l with
  | nil => intro _ st h; exact h
  | cons x xs ih =>
    intro hf st h
    exact ih (fun y hy st2 h2 => hf y (List.mem_cons_of_mem x hy) st2 h2) _
      (hf x (List.mem_cons_self x xs) st h)

theorem foldl_attain {α β : Type} {P : β → Prop} {f : β → α → β} :
    ∀ {l : List α} {x : α}, x ∈ l → (∀ st, P (f st x)) →
      (∀ st y, P st → P (f st y)) → ∀ st, P (l.foldl f st) := by
  intro l
  induction l with
  | nil => intro x hx; cases hx
  | cons z zs ih =>
    intro x hx hset hpres st
    rcases List.mem_cons.mp hx with hz | hz
    · subst hz
      exact foldl_pres (fun st2 y h => hpres st2 y h) zs (f st x) (hset st)
    · exact ih hz hset hpres _

/-! ## Lemmas on the record-list update -/

theorem addPlayer_key (r : OverlapRec) (pj : Nat) :
    (addPlayer r pj).key = r.key := by
  unfold addPlayer
  split <;> rfl

theorem addPlayer_self_mem (r : OverlapRec) (pj : Nat) :
    pj ∈ (addPlayer r pj).players := by
  unfold addPlayer
  by_cases h : pj ∈ r.players
  · rw [if_pos h]; exact h
  · rw [if_neg h]; simp

theorem addPlayer_sub (r : OverlapRec) (pj : Nat) :
    r.players ⊆ (addPlayer r pj).players := by
  unfold addPlayer
  by_cases h : pj ∈ r.players
  · rw [if_pos h]
    exact List.Subset.refl _
  · rw [if_neg h]
    exact List.subset_append_left _ _

theorem insertOverlap_cons_pos {x : OverlapRec} (pi pj srv : Nat) (a b : Int)
    (xs : List OverlapRec) (h : x.server_id = srv ∧ x.start = a ∧ x.stop = b) :
    insertOverlap pi pj srv a b (x :: xs) = addPlayer x pj :: xs := by
  unfold insertOverlap
  rw [if_pos h]

theorem insertOverlap_cons_neg {x : OverlapRec} (pi pj srv : Nat) (a b : Int)
    (xs : List OverlapRec) (h : ¬(x.server_id = srv ∧ x.start = a ∧ x.stop = b)) :
    insertOverlap pi pj srv a b (x :: xs) = x :: insertOverlap pi pj srv a b xs := by
  simp only [insertOverlap]
  rw [if_neg h]

theorem key_eq_iff (r : OverlapRec) (srv : Nat) (a b : Int) :
    r.key = (srv, a, b) ↔ r.server_id = srv ∧ r.start = a ∧ r.stop = b := by
  unfold OverlapRec.key
  simp [Prod.ext_iff]

theorem insertOverlap_attains (pi pj srv : Nat) (a b : Int) :
    ∀ st : List OverlapRec, ∃ r ∈ insertOverlap pi pj srv a b st,
      r.key = (srv, a, b) ∧ pj ∈ r.players := by
  intro st
  induction st with
  | nil =>
    refine ⟨⟨srv, a, b, b - a, [pi, pj]⟩, ?_, rfl, ?_⟩
    · simp [insertOverlap]
    · simp
  | cons x xs ih =>
    by_cases h : x.server_id = srv ∧ x.start = a ∧ x.stop = b
    · refine ⟨addPlayer x pj, ?_, ?_, addPlayer_self_mem x pj⟩
      · rw [insertOverlap_cons_pos pi pj srv a b xs h]
        exact List.mem_cons_self _ _
      · rw [addPlayer_key]
        exact (key_eq_iff x srv a b).mpr h
    · obtain ⟨r0, hmem, hk, hp⟩ := ih
      refine ⟨r0, ?_, hk, hp⟩
      rw [insertOverlap_cons_neg pi pj srv a b xs h]
      exact List.mem_cons_of_mem _ hmem

theorem insertOverlap_mono (pi pj srv : Nat) (a b : Int) :
    ∀ (st : List OverlapRec) (r : OverlapRec), r ∈ st →
      ∃ r2 ∈ insertOverlap pi pj srv a b st,
        r2.key = r.key ∧ r.players ⊆ r2.players := by
  intro st
  induction st with
  | nil => intro r hr; cases hr
  | cons x xs ih =>
    intro r hr
    by_cases h : x.server_id = srv ∧ x.start = a ∧ x.stop = b
    · rw [insertOverlap_cons_pos pi pj srv a b xs h]
      rcases List.mem_cons.mp hr with h1 | h1
      · subst h1
        exact ⟨addPlayer r pj, List.mem_cons_self _ _, addPlayer_key r pj,
          addPlayer_sub r pj⟩
      · exact ⟨r, List.mem_cons_of_mem _ h1, rfl, List.Subset.refl _⟩
    · rw [insertOverlap_cons_neg pi pj srv a b xs h]
      rcases List.mem_cons.mp hr with h1 | h1
      · subst h1
        exact ⟨r, List.mem_cons_self _ _, rfl, List.Subset.refl _⟩
      · obtain ⟨r2, hm, hk, hs⟩ := ih r h1
        exact ⟨r2, List.mem_cons_of_mem _ hm, hk, hs⟩

theorem insertOverlap_mem (pi pj srv : Nat) (a b : Int) :
    ∀ (st : List OverlapRec) (r2 : OverlapRec), r2 ∈ insertOverlap pi pj srv a b st →
      r2 ∈ st
      ∨ (∃ r ∈ st, (r.server_id = srv ∧ r.start = a ∧ r.stop = b) ∧ r2 = addPlayer r pj)
      ∨ r2 = ⟨srv, a, b, b - a, [pi, pj]⟩ := by
  intro st
  induction st with
  | nil =>
    intro r2 h
    right; right
    simpa [insertOverlap] using h
  | cons x xs ih =>
    intro r2 h
    by_cases hx : x.server_id = srv ∧ x.start = a ∧ x.stop = b
    · rw [insertOverlap_cons_pos pi pj srv a b xs hx] at h
      rcases List.mem_cons.mp h with h1 | h1
      · exact Or.inr (Or.inl ⟨x, List.mem_cons_self _ _, hx, h1⟩)
      · exact Or.inl (List.mem_cons_of_mem _ h1)
    · rw [insertOverlap_cons_neg pi pj srv a b xs hx] at h
      rcases List.mem_cons.mp h with h1 | h1
      · exact Or.inl (h1 ▸ List.mem_cons_self _ _)
      · rcases ih r2 h1 with h2 | ⟨r, hm, hc, he⟩ | h2
        · exact Or.inl (List.mem_cons_of_mem _ h2)
        · exact Or.inr (Or.inl ⟨r, List.mem_cons_of_mem _ hm, hc, he⟩)
        · exact Or.inr (Or.inr h2)

/-! ## Keys stay pairwise distinct: no duplicate record per merge key -/

theorem insertOverlap_map_key (pi pj srv : Nat) (a b : Int) :
    ∀ st : List OverlapRec,
      (insertOverlap pi pj srv a b st).map OverlapRec.key
        = if ∃ r ∈ st, r.key = (srv, a, b) then st.map OverlapRec.key
          else st.map OverlapRec.key ++ [(srv, a, b)] := by
  intro st
  induction st with
  | nil =>
    rw [if_neg (by simp)]
    simp [insertOverlap, OverlapRec.key]
  | cons x xs ih =>
    by_cases hx : x.server_id = srv ∧ x.start = a ∧ x.stop = b
    · rw [insertOverlap_cons_pos pi pj srv a b xs hx,
        if_pos ⟨x, List.mem_cons_self x xs, (key_eq_iff x srv a b).mpr hx⟩]
      simp [addPlayer_key]
    · have hxk : ¬ x.key = (srv, a, b) := fun hc => hx ((key_eq_iff x srv a b).mp hc)
      rw [insertOverlap_cons_neg pi pj srv a b xs hx]
      by_cases hex : ∃ r ∈ xs, r.key = (srv, a, b)
      · obtain ⟨r, hm, hk⟩ := hex
        rw [if_pos ⟨r, List.mem_cons_of_mem x hm, hk⟩]
        simp only [List.map_cons]
        rw [ih, if_pos ⟨r, hm, hk⟩]
      · have hnone : ¬ ∃ r ∈ x :: xs, r.key = (srv, a, b) := by
          rintro ⟨r, hm, hk⟩
          rcases List.mem_cons.mp hm with h1 | h1
          · exact hxk (h1 ▸ hk)
          · exact hex ⟨r, h1, hk⟩
        rw [if_neg hnone]
        simp only [List.map_cons, List.cons_append]
        rw [ih, if_neg hex]

theorem keysNodup_insert (pi pj srv : Nat) (a b : Int) (st : List OverlapRec)
    (h : (st.map OverlapRec.key).Nodup) :
    ((insertOverlap pi pj srv a b st).map OverlapRec.key).Nodup := by
  by_cases hex : ∃ r ∈ st, r.key = (srv, a, b)
  · rw [insertOverlap_map_key, if_pos hex]
    exact h
  · rw [insertOverlap_map_key, if_neg hex]
    have hnot : (srv, a, b) ∉ st.map OverlapRec.key := by
      intro hc
      obtain ⟨r, hm, hk⟩ := List.mem_map.mp hc
      exact hex ⟨r, hm, hk⟩
    rw [List.nodup_append]
    refine ⟨h, List.nodup_singleton _, ?_⟩
    intro k hk1 hk2
    rw [List.mem_singleton.mp hk2] at hk1
    exact hnot hk1

theorem keysNodup_step (T : Int) (qi qj : Nat) (t1 t2 : Session)
    (st : List OverlapRec) (h : (st.map OverlapRec.key).Nodup) :
    ((stepSessions T qi qj t1 t2 st).map OverlapRec.key).Nodup := by
  unfold stepSessions
  split
  · exact keysNodup_insert _ _ _ _ _ st h
  · exact h

theorem keysNodup_processPair (T : Int) (sess : Nat → List Session)
    (st : List OverlapRec) (pq : Nat × Nat)
    (h : (st.map OverlapRec.key).Nodup) :
    ((processPair T sess st pq).map OverlapRec.key).Nodup := by
  unfold processPair
  refine foldl_pres (P := fun l => (l.map OverlapRec.key).Nodup)
    (fun st1 s1 h1 => ?_) _ st h
  exact foldl_pres (P := fun l => (l.map OverlapRec.key).Nodup)
    (fun st2 s2 h2 => keysNodup_step T pq.1 pq.2 s1 s2 st2 h2) _ st1 h1

theorem keysNodup_find (ids : List Nat) (sess : Nat → List Session) (T : Int) :
    ((find_overlapping_sessions ids sess T).map OverlapRec.key).Nodup := by
  unfold find_overlapping_sessions
  refine foldl_pres (fun st pq h => keysNodup_processPair T sess st pq h) _ [] ?_
  simp

/-! ## Membership of the later player after a merge -/

theorem hasRecordWith_insert {K : Nat × Int × Int} {q : Nat} (pi pj srv : Nat)
    (a b : Int) (st : List OverlapRec) (h : hasRecordWith K q st) :
    hasRecordWith K q (insertOverlap pi pj srv a b st) := by
  obtain ⟨r, hm, hk, hq⟩ := h
  obtain ⟨r2, hm2, hk2, hs⟩ := insertOverlap_mono pi pj srv a b st r hm
  exact ⟨r2, hm2, hk2.trans hk, hs hq⟩

theorem hasRecordWith_step {K : Nat × Int × Int} {q : Nat} (T : Int)
    (qi qj : Nat) (t1 t2 : Session) (st : List OverlapRec)
    (h : hasRecordWith K q st) :
    hasRecordWith K q (stepSessions T qi qj t1 t2 st) := by
  unfold stepSessions
  split
  · exact hasRecordWith_insert _ _ _ _ _ st h
  · exact h

theorem hasRecordWith_processPair {K : Nat × Int × Int} {q : Nat} (T : Int)
    (sess : Nat → List Session) (st : List OverlapRec) (pq : Nat × Nat)
    (h : hasRecordWith K q st) :
    hasRecordWith K q (processPair T sess st pq) := by
  unfold processPair
  refine foldl_pres (fun st1 s1 h1 => ?_) _ st h
  exact foldl_pres (fun st2 s2 h2 => hasRecordWith_step T pq.1 pq.2 s1 s2 st2 h2) _ st1 h1

theorem stepSessions_attains (T : Int) (pi pj : Nat) (s1 s2 : Session)
    (hsrv : s1.server = s2.server)
    (hlt : max s1.start s2.start < min (effStop T s1) (effStop T s2)) :
    ∀ st, hasRecordWith
      (s1.server, max s1.start s2.start, min (effStop T s1) (effStop T s2)) pj
      (stepSessions T pi pj s1 s2 st) := by
  intro st
  unfold stepSessions
  rw [if_pos ⟨hsrv, hlt⟩]
  exact insertOverlap_attains pi pj s1.server _ _ st

theorem processPair_attains (T : Int) (sess : Nat → List Session)
    (pi pj : Nat) (s1 s2 : Session) (h1 : s1 ∈ sess pi) (h2 : s2 ∈ sess pj)
    (hsrv : s1.server = s2.server)
    (hlt : max s1.start s2.start < min (effStop T s1) (effStop T s2)) :
    ∀ st, hasRecordWith
      (s1.server, max s1.start s2.start, min (effStop T s1) (effStop T s2)) pj
      (processPair T sess st (pi, pj)) := by
  intro st
  unfold processPair
  refine foldl_attain h1 ?_ ?_ st
  · intro st1
    refine foldl_attain h2 (fun st2 => stepSessions_attains T pi pj s1 s2 hsrv hlt st2) ?_ st1
    intro st2 y h
    exact hasRecordWith_step T pi pj s1 y st2 h
  · intro st1 y h
    exact foldl_pres (fun st2 z h2 => hasRecordWith_step T pi pj y z st2 h2) _ st1 h

/-! ## Claim C1 (amended): the later player of a matching pair is merged -/

/-- C1 (amended): the result never holds two records with the same merge
key, and for every pair `(i, j)` of input positions (`i` before `j`) with
same-server sessions overlapping on the interval `(srv, a, b)`, the
returned sequence holds a record with key `(srv, a, b)` counting player
`j` among its participants.  (Player `i` is only guaranteed when the pair
created the record: merging adds `player_ids[j]` alone.) -/
theorem claim_C1_later_player_merged (ids : List Nat)
    (sess : Nat → List Session) (T : Int) :
    ((find_overlapping_sessions ids sess T).map OverlapRec.key).Nodup
    ∧ ∀ pi pj s1 s2, (pi, pj) ∈ allPairs ids → s1 ∈ sess pi → s2 ∈ sess pj →
        s1.server = s2.server →
        max s1.start s2.start < min (effStop T s1) (effStop T s2) →
        hasRecordWith
          (s1.server, max s1.start s2.start, min (effStop T s1) (effStop T s2)) pj
          (find_overlapping_sessions ids sess T) := by
  refine ⟨keysNodup_find ids sess T, ?_⟩
  intro pi pj s1 s2 hpair h1 h2 hsrv hlt
  unfold find_overlapping_sessions
  refine foldl_attain hpair ?_ ?_ []
  · intro st
    exact processPair_attains T sess pi pj s1 s2 h1 h2 hsrv hlt st
  · intro st y h
    exact hasRecordWith_processPair T sess st y h

/-- C1 counterexample data check: with players `[0, 1, 2, 3]`, the pair
`(2, 3)` computes exactly the overlap `(0, 3, 7)` already recorded for
the pair `(0, 1)`, yet after the run player 2 is not a participant of
that record — only `player_ids[j]` is added on a merge, refuting the
claim that both pair members always are. -/
theorem claim_C1_counterexample :
    (⟨2, some 8, 0⟩ : Session) ∈ exSessC1 2
    ∧ (⟨3, some 7, 0⟩ : Session) ∈ exSessC1 3
    ∧ (2, 3) ∈ allPairs [0, 1, 2, 3]
    ∧ (⟨2, some 8, 0⟩ : Session).server = (⟨3, some 7, 0⟩ : Session).server
    ∧ max (⟨2, some 8, 0⟩ : Session).start (⟨3, some 7, 0⟩ : Session).start = 3
    ∧ min (effStop 100 ⟨2, some 8, 0⟩) (effStop 100 ⟨3, some 7, 0⟩) = 7
    ∧ find_overlapping_sessions [0, 1, 2, 3] exSessC1 100
        = [⟨0, 3, 7, 4, [0, 1, 3]⟩, ⟨0, 2, 7, 5, [0, 2]⟩, ⟨0, 3, 8, 5, [1, 2]⟩]
    ∧ ¬ hasRecordWith (0, 3, 7) 2
        (find_overlapping_sessions [0, 1, 2, 3] exSessC1 100) := by
  decide

/-- Witness for C1 at the spec's two-player example: the single record
`(1, 15, 20)` counts player 2. -/
theorem claim_C1_witness :
    ((find_overlapping_sessions [1, 2] wSess 100).map OverlapRec.key).Nodup
    ∧ hasRecordWith (1, 15, 20) 2 (find_overlapping_sessions [1, 2] wSess 100) :=
  ⟨(claim_C1_later_player_merged [1, 2] wSess 100).1,
   (claim_C1_later_player_merged [1, 2] wSess 100).2 1 2 ⟨10, some 20, 1⟩
     ⟨15, some 25, 1⟩ (by decide) (by decide) (by decide) rfl (by decide)⟩

/-! ## Claim C3: the OverlapRecord invariant -/

theorem StateInvariant_insert (T : Int) (sess : Nat → List Session)
    (pi pj srv : Nat) (a b : Int)
    (hab : a < b)
    (hpi : ∃ s ∈ sess pi, s.server = srv ∧ s.start ≤ a ∧ b ≤ effStop T s)
    (hpj : ∃ s ∈ sess pj, s.server = srv ∧ s.start ≤ a ∧ b ≤ effStop T s)
    (hne : pi ≠ pj) (st : List OverlapRec)
    (h : StateInvariant T sess st) :
    StateInvariant T sess (insertOverlap pi pj srv a b st) := by
  intro r2 hm
  rcases insertOverlap_mem pi pj srv a b st r2 hm with hold | ⟨r, hrm, hk, hre⟩ | hnew
  · exact h r2 hold
  · subst hre
    obtain ⟨hlt, hdur, hlen, hnd, hcov⟩ := h r hrm
    unfold addPlayer
    by_cases hin : pj ∈ r.players
    · rw [if_pos hin]
      exact h r hrm
    · rw [if_neg hin]
      refine ⟨hlt, hdur, ?_, ?_, ?_⟩
      · simp only [List.length_append, List.length_singleton]
        omega
      · rw [List.nodup_append]
        refine ⟨hnd, List.nodup_singleton _, ?_⟩
        intro p hp1 hp2
        rw [List.mem_singleton.mp hp2] at hp1
        exact hin hp1
      · intro p hp
        rcases List.mem_append.mp hp with hp1 | hp2
        · exact hcov p hp1
        · rw [List.mem_singleton.mp hp2]
          obtain ⟨s, hs, hsrv, hsa, hsb⟩ := hpj
          exact ⟨s, hs, by rw [hsrv, hk.1], by rw [hk.2.1]; exact hsa,
            by rw [hk.2.2]; exact hsb⟩
  · subst hnew
    refine ⟨hab, rfl, by simp, by simp [hne], ?_⟩
    intro p hp
    rcases List.mem_pair.mp hp with h1 | h1 <;> subst h1
    · exact hpi
    · exact hpj

theorem StateInvariant_step (T : Int) (sess : Nat → List Session)
    (qi qj : Nat) (t1 t2 : Session)
    (h1 : t1 ∈ sess qi) (h2 : t2 ∈ sess qj) (hne : qi ≠ qj)
    (st : List OverlapRec) (h : StateInvariant T sess st) :
    StateInvariant T sess (stepSessions T qi qj t1 t2 st) := by
  unfold stepSessions
  by_cases hg : t1.server = t2.server ∧
      max t1.start t2.start < min (effStop T t1) (effStop T t2)
  · rw [if_pos hg]
    refine StateInvariant_insert T sess qi qj t1.server _ _ hg.2 ?_ ?_ hne st h
    · exact ⟨t1, h1, rfl, le_max_left _ _, min_le_left _ _⟩
    · exact ⟨t2, h2, hg.1.symm, le_max_right _ _, min_le_right _ _⟩
  · rw [if_neg hg]
    exact h

theorem StateInvariant_processPair (T : Int) (sess : Nat → List Session)
    (pq : Nat × Nat) (hne : pq.1 ≠ pq.2) (st : List OverlapRec)
    (h : StateInvariant T sess st) :
    StateInvariant T sess (processPair T sess st pq) := by
  unfold processPair
  refine foldl_pres_mem (P := StateInvariant T sess) ?_ st h
  intro s1 hs1 st1 hi1
  refine foldl_pres_mem (P := StateInvariant T sess) ?_ st1 hi1
  intro s2 hs2 st2 hi2
  exact StateInvariant_step T sess pq.1 pq.2 s1 s2 hs1 hs2 hne st2 hi2

theorem allPairs_ne :
    ∀ ids : List Nat, ids.Nodup → ∀ pq ∈ allPairs ids, pq.1 ≠ pq.2 := by
  intro ids
  induction ids with
  | nil => intro _ pq hpq; cases hpq
  | cons x xs ih =>
    intro h pq hpq
    rcases List.mem_append.mp hpq with h1 | h1
    · obtain ⟨y, hy, rfl⟩ := List.mem_map.mp h1
      intro hc
      have hxy : x = y := hc
      exact (List.nodup_cons.mp h).1 (hxy ▸ hy)
    · exact ih (List.nodup_cons.mp h).2 pq h1

/-- C3 (amended): assuming the input player ids are pairwise distinct,
every record the correlator returns has `start < stop`, derived duration,
at least two participants, no duplicated participant, and every
participant holds a session (null stop read as the window end) covering
`[start, stop]` on the record's server. -/
theorem claim_C3_record_invariant (ids : List Nat)
    (sess : Nat → List Session) (T : Int) (hnd : ids.Nodup) :
    ∀ r ∈ find_overlapping_sessions ids sess T,
      r.start < r.stop ∧ r.duration = r.stop - r.start
      ∧ 2 ≤ r.players.length ∧ r.players.Nodup
      ∧ ∀ p ∈ r.players, ∃ s ∈ sess p,
          s.server = r.server_id ∧ s.start ≤ r.start ∧ r.stop ≤ effStop T s := by
  have hinv : StateInvariant T sess (find_overlapping_sessions ids sess T) := by
    unfold find_overlapping_sessions
    refine foldl_pres_mem (P := StateInvariant T sess) ?_ [] ?_
    · intro pq hpq st h
      exact StateInvariant_processPair T sess pq (allPairs_ne ids hnd pq hpq) st h
    · intro r hr
      exact absurd hr (List.not_mem_nil r)
  exact hinv

/-- C3 counterexample: with the duplicated input `[7, 7]` the returned
record's participant list is `[7, 7]` — a duplicated participant (and
only one distinct player), refuting the unconditional invariant. -/
theorem claim_C3_counterexample :
    (find_overlapping_sessions [7, 7] dupSess 100).map OverlapRec.players = [[7, 7]]
    ∧ ¬ ([7, 7] : List Nat).Nodup := by
  decide

/-- Witness for C3 at the spec's two-player example, instantiated at the
single returned record `(1, 15, 20, 5, [1, 2])`. -/
theorem claim_C3_witness :
    (15 : Int) < 20 ∧ (5 : Int) = 20 - 15 ∧ 2 ≤ ([1, 2] : List Nat).length
    ∧ ([1, 2] : List Nat).Nodup
    ∧ ∀ p ∈ ([1, 2] : List Nat), ∃ s ∈ wSess p,
        s.server = 1 ∧ s.start ≤ 15 ∧ (20 : Int) ≤ effStop 100 s :=
  claim_C3_record_invariant [1, 2] wSess 100 (by decide)
    ⟨1, 15, 20, 5, [1, 2]⟩ (by decide)

end BMCorrelate
